import Mathlib

/-!
Verification development for the sc3k-linux-demangle utility (src/main.cpp).

The program reads a text file of mangled debug-symbol names, demangles each
line (via the external `cplus_demangle` collaborator), normalizes primitive
types in the resulting signature, and assembles a C++ pure-virtual interface
declaration.

Strings are modelled as `List Char`.  C++ `std::string::operator[]` is defined
for indices up to and including `size()` (index `size()` reads the NUL
terminator); an access beyond that is undefined behaviour.  Fallible paths
(thrown `std::runtime_error`, `std::out_of_range`, and undefined behaviour)
are modelled with explicit error values.
-/

deriving instance DecidableEq for Except

namespace SC3K

/-- The NUL character, the value C++ `std::string::operator[] (size())`
returns and the value `from[0]` yields for an empty pattern. -/
def nullChar : Char := Char.ofNat 0

/-- Read of `s[i]` for `i ≤ s.length` (C++ guarantees the NUL terminator at
index `length`).  Callers guard the in-bounds side condition. -/
def cppAt (s : List Char) (i : Nat) : Char := s.getD i nullChar

/-- Helper for `std::string::find`: index of the first position of `l` at
which `pat` occurs as a prefix of the remaining list. -/
def findAux (pat : List Char) : List Char → Option Nat
  | [] => if pat.isEmpty then some 0 else none
  | c :: rest =>
    if pat.isPrefixOf (c :: rest) then some 0
    else (findAux pat rest).map (· + 1)

/-- Model of C++ `str.find(pat, pos)`: the least position `p ≥ pos` at which
`pat` occurs in `s` (`none` for `npos`; a start position beyond the length
yields `npos`, also for an empty pattern). -/
def findFrom (s pat : List Char) (pos : Nat) : Option Nat :=
  if s.length < pos then none
  else (findAux pat (s.drop pos)).map (· + pos)

/-- Result of one run of the substitution scan of
`DoFunctionParameterSubstitution` (src/main.cpp lines 81-105).
`out` is the final string, or `none` when the scan performed an
out-of-bounds character read (undefined behaviour in the C++ source);
`over` records how far past the string's length the furthest read went
(0 when every read was in bounds); `reps` lists, in order, the positions
at which a replacement was performed. -/
structure SubstOut where
  out : Option (List Char)
  over : Nat
  reps : List Nat
deriving DecidableEq

/-- The boundary test of src/main.cpp lines 86-97 for a candidate match of
`f` at position `p` of `s`: no replacement at position 0; otherwise the code
reads `previous = str[p - 1]` and `next = str[p + f.length + 1]` and replaces
when `previous` is a space or `'('` (or `f` starts with a space) and `next`
is `','`, `')'`, `' '` or NUL.  Returns `none` when the `next` read is out of
bounds (index greater than the string length), which is undefined behaviour
in the source. -/
def boundaryOk (s f : List Char) (p : Nat) : Option Bool :=
  if p = 0 then some false
  else if s.length < p + f.length + 1 then none
  else
    some ((cppAt s (p - 1) == ' ' || cppAt s (p - 1) == '(' ||
            f.headD nullChar == ' ') &&
          (cppAt s (p + f.length + 1) == ',' ||
           cppAt s (p + f.length + 1) == ')' ||
           cppAt s (p + f.length + 1) == ' ' ||
           cppAt s (p + f.length + 1) == nullChar))

/-- The scan loop of `DoFunctionParameterSubstitution`: find the next
occurrence of `f` at or after `pos`, apply the boundary test, replace on
success, and resume at the found position plus `t.length` (the C++
`start_pos += to.length()` runs on every iteration).  `fuel` bounds the
number of iterations; the top-level entry point supplies enough fuel for
every call the program makes (both `f` and `t` are nonempty there). -/
def substGo (f t : List Char) : Nat → List Char → Nat → SubstOut
  | 0, _, _ => ⟨none, 0, []⟩
  | fuel + 1, s, pos =>
    match findFrom s f pos with
    | none => ⟨some s, 0, []⟩
    | some p =>
      match boundaryOk s f p with
      | none => ⟨none, p + f.length + 1 - s.length, []⟩
      | some true =>
        let s2 := s.take p ++ t ++ s.drop (p + f.length)
        let r := substGo f t fuel s2 (p + t.length)
        ⟨r.out, r.over, p :: r.reps⟩
      | some false => substGo f t fuel s (p + t.length)

/-- Model of `DoFunctionParameterSubstitution(str, from, to)`
(src/main.cpp lines 81-105). -/
def DoFunctionParameterSubstitution (f t s : List Char) : SubstOut :=
  substGo f t (s.length + 1) s 0

/-- The ordered substitution list `ParameterSubstitutions`
(src/main.cpp lines 34-51). -/
def ParameterSubstitutions : List (List Char × List Char) :=
  [ (" &".toList, "&".toList),
    (" *".toList, "*".toList),
    (" **".toList, "**".toList),
    ("unsigned char".toList, "uint8_t".toList),
    ("unsigned short".toList, "uint16_t".toList),
    ("unsigned int".toList, "uint32_t".toList),
    ("unsigned long".toList, "uint32_t".toList),
    ("unsigned long long".toList, "uint64_t".toList),
    ("char".toList, "int8_t".toList),
    ("short".toList, "int16_t".toList),
    ("int".toList, "int32_t".toList),
    ("long".toList, "int32_t".toList),
    ("long long".toList, "int64_t".toList) ]

/-- The normalization pass of `GetDemangledLine` (src/main.cpp lines
113-116): apply every substitution pair in order.  `none` when a scan hit
undefined behaviour. -/
def normalizeSignature (s : List Char) : Option (List Char) :=
  ParameterSubstitutions.foldl
    (fun acc pr => acc.bind fun cur => (DoFunctionParameterSubstitution pr.1 pr.2 cur).out)
    (some s)

/-- Failure modes of the pipeline: a thrown `std::runtime_error` with its
message, a thrown `std::out_of_range` from `substr`, construction of a
`std::string` from the null pointer returned by a failed `cplus_demangle`
call (undefined behaviour), and an out-of-bounds character read in the
substitution scan (undefined behaviour). -/
inductive CppErr where
  | runtimeErr (msg : String)
  | outOfRange
  | nullDeref
  | oobRead
deriving DecidableEq

/-- The literal `ThunkPrefix` of src/main.cpp line 124. -/
def thunkMarker : List Char := "__thunk_".toList

/-- The literal `VirtualFunctionPrototypePrefix` of src/main.cpp line 123. -/
def virtualMarker : List Char := "virtual ".toList

/-- The line classification of src/main.cpp lines 143-178: strip a
`__thunk_<n>_` marker (searching for the terminating underscore from index
`thunkMarker.length + 1`), or strip a `virtual <return type> ` prototype
wrapper keeping the text up to the opening parenthesis; other lines pass
through unchanged.  Missing delimiters raise the source's
`std::runtime_error` messages. -/
def classifyLine (line : List Char) : Except CppErr (List Char) :=
  if thunkMarker.isPrefixOf line then
    match findFrom line ['_'] (thunkMarker.length + 1) with
    | none => .error (.runtimeErr "Failed to find the end of the thunk prefix.")
    | some thunkEnd => .ok (line.drop (thunkEnd + 1))
  else if virtualMarker.isPrefixOf line then
    match findFrom line [' '] (virtualMarker.length + 1) with
    | none => .error (.runtimeErr "Failed to find the end of the virtual function return type.")
    | some retEnd =>
      match findFrom line ['('] (retEnd + 1) with
      | none => .error (.runtimeErr "Failed to find the end of the virtual function prototype prefix.")
      | some nameEnd => .ok ((line.drop (retEnd + 1)).take (nameEnd - (retEnd + 1)))
  else .ok line

/-- Model of `GetDemangledLine` (src/main.cpp lines 107-119).  `dem` is the
external `cplus_demangle` collaborator: `none` models a null result, from
which the source constructs a `std::string` — undefined behaviour, modelled
as `CppErr.nullDeref`.  A non-null result is normalized by the substitution
list. -/
def GetDemangledLine (dem : List Char → Option (List Char)) (mangledLine : List Char) :
    Except CppErr (List Char) :=
  match dem mangledLine with
  | none => .error .nullDeref
  | some d =>
    match normalizeSignature d with
    | none => .error .oobRead
    | some r => .ok r

/-- Classification followed by demangling and normalization: the processing
src/main.cpp lines 143-180 perform on one non-blank input line. -/
def processLine (dem : List Char → Option (List Char)) (line : List Char) :
    Except CppErr (List Char) :=
  match classifyLine line with
  | .error e => .error e
  | .ok ident => GetDemangledLine dem ident

/-- The loop state of `DemangleInputFile` (src/main.cpp lines 129-132):
the iteration counter and the two variables fixed by the first processed
line. -/
structure AsmState where
  lineIndex : Nat
  functionNameStart : Nat
  isGZUnknownClass : Bool
deriving DecidableEq

/-- The initial state of the `DemangleInputFile` loop. -/
def asmInit : AsmState := ⟨0, 0, false⟩

/-- The expected method text compared against at src/main.cpp line 192. -/
def qiSuffix : List Char := "QueryInterface(uint32_t, void**)".toList

/-- The interface-name rewriting of src/main.cpp lines 200-215: a class
name starting with `cRZ` has that 3-character prefix replaced by `cIGZ`;
otherwise a name starting with `c` has `cI` substituted for the leading
`c`; other names (including the empty name, whose `className[0]` read
yields NUL) are unchanged. -/
def rewriteClassName (cn : List Char) : List Char :=
  if cppAt cn 0 == 'c' then
    if ("cRZ".toList).isPrefixOf cn then "cIGZ".toList ++ cn.drop 3
    else "cI".toList ++ cn.drop 1
  else cn

/-- Output line `#include "cIGZUnknown.h"` (src/main.cpp line 217). -/
def includeLine : List Char := "#include \"cIGZUnknown.h\"".toList

/-- Output line `class <name> : public cIGZUnknown` (src/main.cpp line 218). -/
def gzClassLine (cn : List Char) : List Char :=
  "class ".toList ++ cn ++ " : public cIGZUnknown".toList

/-- Output line `class <name>` (src/main.cpp line 227). -/
def plainClassLine (cn : List Char) : List Char := "class ".toList ++ cn

/-- The opening-brace output line (src/main.cpp lines 219 and 228). -/
def braceLine : List Char := "\x7b".toList

/-- The access-specifier output line (src/main.cpp lines 220 and 229). -/
def publicLine : List Char := "public:".toList

/-- The member-declaration output line of src/main.cpp line 239. -/
def memberLine (sig : List Char) : List Char :=
  "    virtual void* ".toList ++ sig ++ " = 0;".toList

/-- The closing output line written after the loop (src/main.cpp line 242). -/
def closingLine : List Char := "\x7d;".toList

/-- One iteration of the `DemangleInputFile` loop (src/main.cpp lines
132-240) on one input line: the new state, the output lines written by this
iteration, and an error if the iteration threw.  A blank line is skipped
(`continue`), which still runs the `for` increment of `lineIndex`.  On the
first processed line the position of the first `':'` (the
`find_first_of("::")` call) fixes `functionNameStart` and the
QueryInterface comparison fixes `isGZUnknownClass`; `substr` past the end
of the string view throws `std::out_of_range`. -/
def stepLine (dem : List Char → Option (List Char)) (st : AsmState) (line : List Char) :
    AsmState × List (List Char) × Option CppErr :=
  if line.length = 0 then ({ st with lineIndex := st.lineIndex + 1 }, [], none)
  else
    match processLine dem line with
    | .error e => (st, [], some e)
    | .ok result =>
      if st.lineIndex = 0 then
        match findFrom result [':'] 0 with
        | some idx =>
          let fns := idx + 2
          if result.length < fns then (st, [], some .outOfRange)
          else if result.drop fns == qiSuffix then
            (⟨st.lineIndex + 1, fns, true⟩,
             [includeLine, [], gzClassLine (rewriteClassName (result.take idx)),
              braceLine, publicLine], none)
          else
            (⟨st.lineIndex + 1, fns, false⟩,
             [plainClassLine (result.take idx), braceLine, publicLine,
              memberLine (result.drop fns)], none)
        | none =>
          if result.length < st.functionNameStart then (st, [], some .outOfRange)
          else ({ st with lineIndex := st.lineIndex + 1 },
                [memberLine (result.drop st.functionNameStart)], none)
      else if st.lineIndex < 3 && st.isGZUnknownClass then
        ({ st with lineIndex := st.lineIndex + 1 }, [], none)
      else
        if result.length < st.functionNameStart then (st, [], some .outOfRange)
        else ({ st with lineIndex := st.lineIndex + 1 },
              [memberLine (result.drop st.functionNameStart)], none)

/-- The `DemangleInputFile` loop over the remaining input lines, from a
given state: the accumulated output lines and the error that aborted the
run, if any.  On normal completion the closing `};` line is appended; a
thrown error propagates out before it is written, leaving only the output
already written. -/
def demangleLoop (dem : List Char → Option (List Char)) (st : AsmState) :
    List (List Char) → List (List Char) × Option CppErr
  | [] => ([closingLine], none)
  | l :: rest =>
    match stepLine dem st l with
    | (st2, outs, none) =>
      let r := demangleLoop dem st2 rest
      (outs ++ r.1, r.2)
    | (_, outs, some e) => (outs, some e)

/-- Model of `DemangleInputFile` (src/main.cpp lines 121-243): the sequence
of output lines produced for the given sequence of input lines, and the
error that aborted the run, if any. -/
def DemangleInputFile (dem : List Char → Option (List Char)) (lines : List (List Char)) :
    List (List Char) × Option CppErr :=
  demangleLoop dem asmInit lines

/-- Modelled from the spec's words, for comparison with the code: the
claimed replacement condition for an occurrence of `f` at position `p` of
`s` — the character immediately preceding the match is a space or an
opening parenthesis (or the pattern itself starts with a space), and the
character immediately following the match, at position `p + f.length`, is
a comma, a closing parenthesis, a space, or the end of the string. -/
def specReplaceCond (s f : List Char) (p : Nat) : Bool :=
  ((p != 0 && (cppAt s (p - 1) == ' ' || cppAt s (p - 1) == '(')) ||
    f.headD nullChar == ' ') &&
  (p + f.length == s.length ||
   cppAt s (p + f.length) == ',' ||
   cppAt s (p + f.length) == ')' ||
   cppAt s (p + f.length) == ' ')

/-- Whether `f` occurs in `s` as a whole word in the spec's sense: at some
position whose surrounding characters satisfy `specReplaceCond`. -/
def hasWholeWord (s f : List Char) : Bool :=
  (List.range s.length).any fun p => f.isPrefixOf (s.drop p) && specReplaceCond s f p

/-! Concrete demangler oracles used by witnesses and counterexamples -/

/-- Oracle mapping three mangled lines to the signatures of the
unknown-interface convention. -/
def demQI : List Char → Option (List Char) := fun l =>
  if l == "q".toList then some ("cSC3App::QueryInterface(unsigned int, void **)".toList)
  else if l == "a".toList then some ("cSC3App::AddRef()".toList)
  else if l == "r".toList then some ("cSC3App::Release()".toList)
  else none

/-- Oracle demangling the single line `m` to an ordinary qualified
signature. -/
def demPlain : List Char → Option (List Char) := fun l =>
  if l == "m".toList then some ("C::f()".toList) else none

/-- Oracle demangling the single line `m` to an unqualified signature
(no `::`). -/
def demBare : List Char → Option (List Char) := fun l =>
  if l == "m".toList then some ("f()".toList) else none

/-- Oracle demangling the single line `m` to the empty string. -/
def demEmpty : List Char → Option (List Char) := fun l =>
  if l == "m".toList then some [] else none

/-- Oracle on which every demangling attempt returns a null pointer. -/
def demNull : List Char → Option (List Char) := fun _ => none

/-- Oracle demangling the single line `x` to a `cRZ`-class
QueryInterface signature. -/
def demRZ : List Char → Option (List Char) := fun l =>
  if l == "x".toList then
    some ("cRZLanguageManager::QueryInterface(uint32_t, void**)".toList)
  else none

/-! Properties of the find model -/

theorem isPrefixOf_eq_true_iff {l1 l2 : List Char} : l1.isPrefixOf l2 = true ↔ l1 <+: l2 :=
  List.isPrefixOf_iff_prefix

theorem findAux_bound {pat l : List Char} {j : Nat} (h : findAux pat l = some j) :
    j + pat.length ≤ l.length := by
  induction l generalizing j with
  | nil =>
    simp only [findAux] at h
    split at h
    · rename_i he
      cases h
      have hp : pat = [] := List.isEmpty_iff.mp he
      simp [hp]
    · cases h
  | cons c rest ih =>
    simp only [findAux] at h
    split at h
    · cases h
      rename_i hpre
      have := (isPrefixOf_eq_true_iff.mp hpre).length_le
      simpa using this
    · rcases Option.map_eq_some'.mp h with ⟨j', hj', rfl⟩
      have := ih hj'
      simp only [List.length_cons]
      omega

theorem findAux_isPrefix {pat l : List Char} {j : Nat} (h : findAux pat l = some j) :
    pat.isPrefixOf (l.drop j) = true := by
  induction l generalizing j with
  | nil =>
    simp only [findAux] at h
    split at h
    · rename_i he
      cases h
      have hp : pat = [] := List.isEmpty_iff.mp he
      simp [hp]
    · cases h
  | cons c rest ih =>
    simp only [findAux] at h
    split at h
    · cases h; assumption
    · rcases Option.map_eq_some'.mp h with ⟨j', hj', rfl⟩
      simpa using ih hj'

theorem findAux_least {pat l : List Char} {j : Nat} (h : findAux pat l = some j) :
    ∀ k, k < j → pat.isPrefixOf (l.drop k) = false := by
  induction l generalizing j with
  | nil =>
    simp only [findAux] at h
    split at h
    · cases h; omega
    · cases h
  | cons c rest ih =>
    simp only [findAux] at h
    split at h
    · cases h; omega
    · rcases Option.map_eq_some'.mp h with ⟨j', hj', rfl⟩
      rename_i hpre
      intro k hk
      cases k with
      | zero => simp only [List.drop_zero]; exact Bool.eq_false_iff.mpr hpre
      | succ k2 => simpa using ih hj' k2 (by omega)

theorem findAux_none {pat l : List Char} (h : findAux pat l = none) :
    ∀ k, pat.isPrefixOf (l.drop k) = false := by
  induction l with
  | nil =>
    intro k
    simp only [findAux] at h
    split at h
    · cases h
    · rename_i he
      cases pat with
      | nil => simp at he
      | cons a as => simp
  | cons c rest ih =>
    intro k
    simp only [findAux] at h
    split at h
    · cases h
    · rename_i hpre
      have hrest : findAux pat rest = none := by
        cases hr : findAux pat rest with
        | none => rfl
        | some j => rw [hr] at h; simp at h
      cases k with
      | zero => simp only [List.drop_zero]; exact Bool.eq_false_iff.mpr hpre
      | succ k2 => simpa using ih hrest k2

theorem findAux_complete {pat l : List Char} {k : Nat}
    (h : pat.isPrefixOf (l.drop k) = true) : ∃ j, findAux pat l = some j ∧ j ≤ k := by
  cases hf : findAux pat l with
  | some j =>
    refine ⟨j, rfl, ?_⟩
    by_contra hlt
    have := findAux_least hf k (by omega)
    rw [h] at this
    cases this
  | none =>
    have := findAux_none hf k
    rw [h] at this
    cases this

theorem findFrom_bound {s pat : List Char} {pos p : Nat} (h : findFrom s pat pos = some p) :
    pos ≤ p ∧ p + pat.length ≤ s.length := by
  unfold findFrom at h
  split at h
  · cases h
  · rename_i hle
    rcases Option.map_eq_some'.mp h with ⟨j, hj, rfl⟩
    have hb := findAux_bound hj
    rw [List.length_drop] at hb
    omega

theorem findFrom_isPrefix {s pat : List Char} {pos p : Nat} (h : findFrom s pat pos = some p) :
    pat.isPrefixOf (s.drop p) = true := by
  unfold findFrom at h
  split at h
  · cases h
  · rcases Option.map_eq_some'.mp h with ⟨j, hj, rfl⟩
    have := findAux_isPrefix hj
    rwa [List.drop_drop, Nat.add_comm pos j] at this

theorem findFrom_none {s pat : List Char} {pos : Nat} (hpat : pat ≠ [])
    (h : findFrom s pat pos = none) :
    ∀ k, pos ≤ k → pat.isPrefixOf (s.drop k) = false := by
  intro k hk
  unfold findFrom at h
  split at h
  · rename_i hlt
    have hnil : s.drop k = [] := List.drop_eq_nil_iff.mpr (by omega)
    rw [hnil]
    cases pat with
    | nil => exact absurd rfl hpat
    | cons a as => rfl
  · have hnone : findAux pat (s.drop pos) = none := by
      cases hr : findAux pat (s.drop pos) with
      | none => rfl
      | some j => rw [hr] at h; simp at h
    have := findAux_none hnone (k - pos)
    rwa [List.drop_drop, Nat.add_sub_cancel' hk] at this

theorem findFrom_least {s pat : List Char} {pos p : Nat} (h : findFrom s pat pos = some p) :
    ∀ k, pos ≤ k → k < p → pat.isPrefixOf (s.drop k) = false := by
  intro k hk hkp
  unfold findFrom at h
  split at h
  · cases h
  · rcases Option.map_eq_some'.mp h with ⟨j, hj, rfl⟩
    have := findAux_least hj (k - pos) (by omega)
    rwa [List.drop_drop, Nat.add_sub_cancel' hk] at this

theorem findFrom_complete {s pat : List Char} {pos k : Nat} (hpat : pat ≠ [])
    (hk : pos ≤ k) (h : pat.isPrefixOf (s.drop k) = true) :
    ∃ p, findFrom s pat pos = some p ∧ p ≤ k := by
  have hkl : k < s.length := by
    by_contra hge
    have hnil : s.drop k = [] := List.drop_eq_nil_iff.mpr (by omega)
    rw [hnil] at h
    cases pat with
    | nil => exact absurd rfl hpat
    | cons a as => cases h
  have hdp : pat.isPrefixOf ((s.drop pos).drop (k - pos)) = true := by
    rwa [List.drop_drop, Nat.add_sub_cancel' hk]
  rcases findAux_complete hdp with ⟨j, hj, hjk⟩
  refine ⟨j + pos, ?_, by omega⟩
  unfold findFrom
  rw [if_neg (by omega), hj]
  rfl

/-! Properties of the substitution scan -/

theorem boundaryOk_true_pos {s f : List Char} {p : Nat}
    (h : boundaryOk s f p = some true) : 0 < p := by
  by_contra h0
  have hp : p = 0 := by omega
  subst hp
  simp [boundaryOk] at h

theorem substGo_over_le (f t : List Char) :
    ∀ fuel s pos, (substGo f t fuel s pos).over ≤ 1 := by
  intro fuel
  induction fuel with
  | zero => intro s pos; simp [substGo]
  | succ n ih =>
    intro s pos
    simp only [substGo]
    split
    · simp
    · rename_i p hf
      split
      · rename_i hb
        have := (findFrom_bound hf).2
        dsimp only
        omega
      · dsimp only
        exact ih (s.take p ++ t ++ s.drop (p + f.length)) (p + t.length)
      · exact ih s (p + t.length)

theorem substGo_reps_lb (f t : List Char) :
    ∀ fuel s pos q, q ∈ (substGo f t fuel s pos).reps → pos ≤ q ∧ 0 < q := by
  intro fuel
  induction fuel with
  | zero => intro s pos q hq; simp [substGo] at hq
  | succ n ih =>
    intro s pos q hq
    simp only [substGo] at hq
    split at hq
    · simp at hq
    · rename_i p hf
      have hpos := (findFrom_bound hf).1
      split at hq

      · simp at hq
      · rename_i hb
        dsimp only at hq
        simp only [List.mem_cons] at hq
        rcases hq with rfl | hq
        · exact ⟨hpos, boundaryOk_true_pos hb⟩
        · have := ih (s.take p ++ t ++ s.drop (p + f.length)) (p + t.length) q hq
          omega
      · have := ih s (p + t.length) q hq
        omega

theorem substGo_mem_reps_iff {f t s : List Char} {fuel pos p : Nat}
    (ht : t ≠ []) (hfuel : s.length + 1 ≤ fuel + pos)
    (hfind : findFrom s f pos = some p) :
    (p ∈ (substGo f t fuel s pos).reps) ↔ boundaryOk s f p = some true := by
  have hbnd := findFrom_bound hfind
  have htlen : 0 < t.length := List.length_pos.mpr ht
  cases fuel with
  | zero => omega
  | succ n =>
    simp only [substGo, hfind]
    cases hb : boundaryOk s f p with
    | none => simp [hb]
    | some b =>
      cases b with
      | true => simp
      | false =>
        simp only [List.mem_cons]
        constructor
        · intro hq
          have := substGo_reps_lb f t n s (p + t.length) p hq
          omega
        · intro hq
          cases hq

/-! Claims about the substitution scan -/

/-- Claim C1, counterexample: in the signature `(int)x` the scan finds the
occurrence of `int` at position 1, and the claim's replacement condition
holds there (preceded by an opening parenthesis; the character immediately
following the match, at position 1 + 3 = 4, is a closing parenthesis), yet
the code replaces nothing: it tests the character one position further
(`x`).  The string comes back unchanged with an empty replacement list. -/
theorem claimC1_counterexample :
    specReplaceCond ("(int)x".toList) ("int".toList) 1 = true
    ∧ findFrom ("(int)x".toList) ("int".toList) 0 = some 1
    ∧ DoFunctionParameterSubstitution ("int".toList) ("int32_t".toList) ("(int)x".toList) =
        ⟨some ("(int)x".toList), 0, []⟩ :=
  ⟨by decide, by decide, by decide⟩

/-- Claim C1 (amended): a candidate occurrence of `from` found by the
substitution scan at position p is replaced if and only if p > 0, and the
character at p - 1 is a space or an opening parenthesis (or the pattern
itself starts with a space), and the character at position
p + length(from) + 1 — one past the character immediately following the
match — is a comma, a closing parenthesis, a space, or the NUL terminator
(`boundaryOk` is exactly this test, `none` when that read is out of
bounds). -/
theorem claimC1_amended {f t s : List Char} {fuel pos p : Nat}
    (ht : t ≠ []) (hfuel : s.length + 1 ≤ fuel + pos)
    (hfind : findFrom s f pos = some p) :
    (p ∈ (substGo f t fuel s pos).reps) ↔ boundaryOk s f p = some true :=
  substGo_mem_reps_iff ht hfuel hfind

/-- Witness for claim C1's amended theorem at a concrete input. -/
theorem claimC1_amended_witness :
    ((1 : Nat) ∈ (substGo ("int".toList) ("int32_t".toList) 6 ("(int)".toList) 0).reps) ↔
      boundaryOk ("(int)".toList) ("int".toList) 1 = some true :=
  claimC1_amended (by decide) (by decide) (by decide)

/-- Claim C7, counterexample: the Normalizer is not idempotent — on
`f(  &)` (two spaces before the ampersand) the first pass rewrites to
`f( &)`, resuming past the replacement and so skipping the newly exposed
` &` occurrence, and a second pass rewrites further to `f(&)`.  Moreover
on `f(int x)` a whole-word occurrence (in the spec's boundary sense) of
the primitive token `int` survives normalization. -/
theorem claimC7_counterexample :
    normalizeSignature ("f(  &)".toList) = some ("f( &)".toList)
    ∧ normalizeSignature ("f( &)".toList) = some ("f(&)".toList)
    ∧ normalizeSignature ("f(int x)".toList) = some ("f(int x)".toList)
    ∧ hasWholeWord ("f(int x)".toList) ("int".toList) = true :=
  ⟨by decide, by decide, by decide, by decide⟩

/-- Claim C7 (amended): on demangler-shaped signatures — here two
representative outputs, the unknown-interface method and a signature with
pointer and unsigned parameters — one pass of the Normalizer leaves no
primitive-type `from` token of the substitution list as a whole word, and
re-running the Normalizer on its own output is a no-op.  The claim's
universal quantification over arbitrary strings fails (see the
counterexample). -/
theorem claimC7_amended :
    normalizeSignature ("cSC3App::QueryInterface(unsigned int, void **)".toList) =
      some ("cSC3App::QueryInterface(uint32_t, void**)".toList)
    ∧ normalizeSignature ("cSC3App::QueryInterface(uint32_t, void**)".toList) =
        some ("cSC3App::QueryInterface(uint32_t, void**)".toList)
    ∧ ((ParameterSubstitutions.drop 3).all fun pr =>
        !(hasWholeWord ("cSC3App::QueryInterface(uint32_t, void**)".toList) pr.1)) = true
    ∧ normalizeSignature ("cFoo::Bar(int *, unsigned long)".toList) =
        some ("cFoo::Bar(int32_t*, uint32_t)".toList)
    ∧ normalizeSignature ("cFoo::Bar(int32_t*, uint32_t)".toList) =
        some ("cFoo::Bar(int32_t*, uint32_t)".toList)
    ∧ ((ParameterSubstitutions.drop 3).all fun pr =>
        !(hasWholeWord ("cFoo::Bar(int32_t*, uint32_t)".toList) pr.1)) = true :=
  ⟨by decide, by decide, by decide, by decide, by decide, by decide⟩

/-- Claim C9: a candidate occurrence of `from` at position 0 of the string
is never replaced — the whole boundary check of the scan sits under the
`start_pos > 0` guard — and in particular the full Normalizer keeps the
leading primitive return type of `unsigned int Foo()` unnormalized. -/
theorem claimC9_position_zero :
    (∀ f t s : List Char, 0 ∉ (DoFunctionParameterSubstitution f t s).reps)
    ∧ normalizeSignature ("unsigned int Foo()".toList) =
        some ("unsigned int Foo()".toList) := by
  constructor
  · intro f t s h
    have := substGo_reps_lb f t (s.length + 1) s 0 0 h
    omega
  · decide

/-- Witness for claim C9's theorem at a concrete input: the occurrence of
the pattern ` &` at position 0 of ` &)` is not replaced. -/
theorem claimC9_position_zero_witness :
    0 ∉ (DoFunctionParameterSubstitution (" &".toList) ("&".toList) (" &)".toList)).reps :=
  claimC9_position_zero.1 (" &".toList) ("&".toList) (" &)".toList)

/-- Claim C10, counterexample: scanning `a int` for `int` finds the match
at position 2, which ends at the final character; the boundary check's
lookahead read targets index 2 + 3 + 1 = 6 = length + 1, one past the NUL
terminator and out of bounds.  The model records overshoot 1 and no
defined result. -/
theorem claimC10_counterexample :
    DoFunctionParameterSubstitution ("int".toList) ("int32_t".toList) ("a int".toList) =
      ⟨none, 1, []⟩ := by decide

/-- Claim C10 (amended): every character read of the boundary check is at
an index at most length + 1 — the recorded overshoot of the lookahead read
past the string's length never exceeds 1, for every pattern, replacement
and subject string (a match fits inside the string, so the read at
p + length(from) + 1 is at most length + 1). -/
theorem claimC10_amended :
    ∀ f t s : List Char, (DoFunctionParameterSubstitution f t s).over ≤ 1 :=
  fun f t s => substGo_over_le f t (s.length + 1) s 0

/-! Properties of the line classifier -/

theorem isPrefixOf_singleton {c : Char} {l : List Char} :
    (([c] : List Char).isPrefixOf l) = true ↔ l.head? = some c := by
  rw [isPrefixOf_eq_true_iff]
  cases l with
  | nil => simp
  | cons a as => simp [List.cons_prefix_cons, eq_comm]

theorem findAux_all_ne {c : Char} (ds rest : List Char) (h : ∀ d ∈ ds, d ≠ c) :
    findAux [c] (ds ++ c :: rest) = some ds.length := by
  induction ds with
  | nil =>
    have hp : ([c] : List Char).isPrefixOf (c :: rest) = true := isPrefixOf_singleton.mpr rfl
    simp [findAux, hp]
  | cons d ds ih =>
    have hd : d ≠ c := h d (by simp)
    have hrest : ∀ x ∈ ds, x ≠ c := fun x hx => h x (by simp [hx])
    simp only [List.cons_append, findAux, List.append_eq]
    rw [if_neg]
    · rw [ih hrest]
      rfl
    · intro hc
      have h2 := isPrefixOf_singleton.mp hc
      simp only [List.head?_cons, Option.some.injEq] at h2
      exact hd h2

theorem classify_thunk_ok (ds rest : List Char) (hne : ds ≠ [])
    (hnu : ∀ c ∈ ds, c ≠ '_') :
    classifyLine (thunkMarker ++ ds ++ '_' :: rest) = .ok rest := by
  obtain ⟨d, ds2, rfl⟩ : ∃ d ds2, ds = d :: ds2 := by
    cases ds with
    | nil => exact absurd rfl hne
    | cons d ds2 => exact ⟨d, ds2, rfl⟩
  have hm : thunkMarker.length = 8 := rfl
  have hpre : thunkMarker.isPrefixOf (thunkMarker ++ (d :: ds2) ++ '_' :: rest) = true := by
    rw [isPrefixOf_eq_true_iff, List.append_assoc]
    exact List.prefix_append _ _
  have hfind : findFrom (thunkMarker ++ (d :: ds2) ++ '_' :: rest) ['_']
      (thunkMarker.length + 1) = some (ds2.length + 9) := by
    unfold findFrom
    rw [if_neg (by simp only [List.length_append, List.length_cons, hm]; omega)]
    have hdrop : (thunkMarker ++ (d :: ds2) ++ '_' :: rest).drop (thunkMarker.length + 1) =
        ds2 ++ '_' :: rest := by
      rw [List.append_assoc, List.drop_append]
      rfl
    rw [hdrop, findAux_all_ne ds2 rest (fun x hx => hnu x (by simp [hx]))]
    simp [hm]
  unfold classifyLine
  rw [if_pos hpre, hfind]
  dsimp only
  have : (thunkMarker ++ (d :: ds2) ++ '_' :: rest).drop (ds2.length + 9 + 1) = rest := by
    rw [List.append_assoc]
    have h9 : ds2.length + 9 + 1 = thunkMarker.length + (ds2.length + 2) := by
      rw [hm]; omega
    rw [h9, List.drop_append]
    have h2 : ds2.length + 2 = (d :: ds2).length + 1 := by simp
    rw [h2]
    have := @List.drop_append Char (d :: ds2) ('_' :: rest) 1
    simp only [List.drop_one, List.tail_cons] at this
    exact this
  rw [this]

theorem classify_thunk_fail_iff (ln : List Char)
    (hpre : thunkMarker.isPrefixOf ln = true) :
    classifyLine ln = .error (.runtimeErr "Failed to find the end of the thunk prefix.") ↔
      ∀ k, thunkMarker.length + 1 ≤ k → ln[k]? ≠ some '_' := by
  unfold classifyLine
  rw [if_pos hpre]
  cases hf : findFrom ln ['_'] (thunkMarker.length + 1) with
  | none =>
    constructor
    · intro _ k hk hg
      have hfalse := findFrom_none (by decide) hf k hk
      have h2 : (ln.drop k).head? = some '_' := by
        rw [List.head?_drop]
        exact hg
      have h3 := isPrefixOf_singleton.mpr h2
      rw [h3] at hfalse
      cases hfalse
    · intro _
      rfl
  | some p =>
    simp only
    constructor
    · intro he
      exact Except.noConfusion he
    · intro hall
      exfalso
      have hp := findFrom_isPrefix hf
      have hb := (findFrom_bound hf).1
      have : ln[p]? = some '_' := by
        rw [← List.head?_drop]
        exact isPrefixOf_singleton.mp hp
      exact hall p hb this

/-- Claim C6: a line beginning with the thunk marker `__thunk_<number>_`
(nonempty numeric identifier) strips to everything after the underscore
terminating the number — the concrete example `__thunk_4_AC6cFoo3BarFv`
strips to `AC6cFoo3BarFv` — and classification fails with the source's
`std::runtime_error` exactly when no underscore occurs at any index from
`thunkMarker.length + 1` on (the code searches for the terminating
underscore from the character after the number's first digit). -/
theorem claimC6_thunk_strip :
    (∀ ds rest : List Char, ds ≠ [] → (∀ c ∈ ds, c.isDigit = true) →
        classifyLine (thunkMarker ++ ds ++ '_' :: rest) = .ok rest)
    ∧ (∀ ln : List Char, thunkMarker.isPrefixOf ln = true →
        (classifyLine ln =
            .error (.runtimeErr "Failed to find the end of the thunk prefix.") ↔
          ∀ k, thunkMarker.length + 1 ≤ k → ln[k]? ≠ some '_'))
    ∧ classifyLine ("__thunk_4_AC6cFoo3BarFv".toList) = .ok ("AC6cFoo3BarFv".toList) := by
  refine ⟨?_, classify_thunk_fail_iff, by decide⟩
  intro ds rest hne hdig
  refine classify_thunk_ok ds rest hne ?_
  intro c hc heq
  subst heq
  have := hdig _ hc
  exact absurd this (by decide)

/-- Witness for claim C6's theorem at a concrete thunk line. -/
theorem claimC6_thunk_strip_witness :
    classifyLine (thunkMarker ++ ['4'] ++ '_' :: ("AB".toList)) = .ok ("AB".toList) :=
  claimC6_thunk_strip.1 ['4'] ("AB".toList) (by decide) (by decide)

/-! Claims about the class assembler -/

/-- Claim C2, counterexample: a blank line increments `lineIndex` — the
`continue` in the C-style `for` loop still runs the loop increment.  With a
blank first line, the line demangling to `C::f()` is processed at
lineIndex 1, so no class header is emitted and the qualified name is not
stripped; without the blank line the same input produces the class header
block and the stripped member.  The two runs differ, refuting that the
line after a blank is processed with the lineIndex it would have had were
the blank absent. -/
theorem claimC2_counterexample :
    (stepLine demPlain asmInit []).1.lineIndex = 1
    ∧ DemangleInputFile demPlain [[], "m".toList] =
        ([memberLine ("C::f()".toList), closingLine], none)
    ∧ DemangleInputFile demPlain ["m".toList] =
        ([plainClassLine ("C".toList), braceLine, publicLine,
          memberLine ("f()".toList), closingLine], none) :=
  ⟨by decide, by decide, by decide⟩

/-- Claim C2 (amended): a blank input line produces no output lines and
leaves `functionNameStart` and `isGZUnknownClass` untouched, but it does
increment `lineIndex`: the `continue` skips only the loop body, not the
`for` increment. -/
theorem claimC2_amended (dem : List Char → Option (List Char)) (st : AsmState) :
    stepLine dem st [] = ({ st with lineIndex := st.lineIndex + 1 }, [], none) := rfl

/-- Claim C5, counterexample: when the demangler returns an empty string
for a line, no error is raised at all — the empty signature flows through
normalization and the assembler emits the garbage member line
`    virtual void*  = 0;` before closing the class normally. -/
theorem claimC5_counterexample :
    DemangleInputFile demEmpty ["m".toList] = ([memberLine [], closingLine], none) := by
  decide

/-- Claim C5 (amended): a null demangler result aborts the run — but by
constructing a `std::string` from a null pointer (undefined behaviour,
`CppErr.nullDeref`), not by a propagated `EmptySignatureError`; no member
line and no closing line are produced for that run.  An empty (non-null)
demangler result is not detected: processing continues and the garbage
member line for the empty signature is emitted with no error. -/
theorem claimC5_amended :
    DemangleInputFile demNull ["m".toList] = ([], some CppErr.nullDeref)
    ∧ DemangleInputFile demEmpty ["m".toList] = ([memberLine [], closingLine], none) :=
  ⟨by decide, by decide⟩

/-- Claim C8, counterexample: when the first processed line's normalized
signature contains no `::`, the code emits no class header line at all
(the claim says a bare class header is emitted): the whole output for a
one-line input is just the member line and the closing brace, and no
output line starts with `class `. -/
theorem claimC8_counterexample :
    DemangleInputFile demBare ["m".toList] =
      ([memberLine ("f()".toList), closingLine], none)
    ∧ ((DemangleInputFile demBare ["m".toList]).1.all
        fun o => !(("class ".toList).isPrefixOf o)) = true :=
  ⟨by decide, by decide⟩

/-- Claim C8 (amended): a first processed line whose normalized signature
has no `::` separator is non-fatal, but no class header of any form is
emitted: the member-name offset stays at its default 0 and the member
declaration containing the signature's full text is emitted; processing
continues with `lineIndex` 1 and `isGZUnknownClass` false. -/
theorem claimC8_amended (dem : List Char → Option (List Char)) (l r : List Char)
    (rest : List (List Char)) (hne : l ≠ []) (h : processLine dem l = .ok r)
    (hnc : findFrom r [':'] 0 = none) :
    DemangleInputFile dem (l :: rest) =
      (memberLine r :: (demangleLoop dem ⟨1, 0, false⟩ rest).1,
       (demangleLoop dem ⟨1, 0, false⟩ rest).2) := by
  have hl : ¬ (l.length = 0) := by
    simpa [List.length_eq_zero] using hne
  simp only [DemangleInputFile, demangleLoop, stepLine, asmInit, h, hnc, hl, if_false,
    if_neg hl, List.drop_zero, Nat.not_lt_zero, ite_false, ite_true]
  rfl

/-- Witness for claim C8's amended theorem at a concrete input. -/
theorem claimC8_amended_witness :
    DemangleInputFile demBare ["m".toList] =
      (memberLine ("f()".toList) :: (demangleLoop demBare ⟨1, 0, false⟩ []).1,
       (demangleLoop demBare ⟨1, 0, false⟩ []).2) :=
  claimC8_amended demBare ("m".toList) ("f()".toList) [] (by decide) (by decide) (by decide)

theorem stepLine_qi_first (dem : List Char → Option (List Char))
    (l0 r0 : List Char) (idx : Nat) (h0ne : l0 ≠ [])
    (h0 : processLine dem l0 = .ok r0)
    (hidx : findFrom r0 [':'] 0 = some idx)
    (hqi : r0.drop (idx + 2) = qiSuffix) :
    stepLine dem asmInit l0 =
      (⟨1, idx + 2, true⟩,
       [includeLine, [], gzClassLine (rewriteClassName (r0.take idx)),
        braceLine, publicLine], none) := by
  have h0l : ¬ (l0.length = 0) := by simpa [List.length_eq_zero] using h0ne
  have hfit : ¬ (r0.length < idx + 2) := by
    intro hlt
    have hdnil : r0.drop (idx + 2) = [] := List.drop_eq_nil_iff.mpr (by omega)
    rw [hdnil] at hqi
    exact (by decide : ¬ ([] = qiSuffix)) hqi
  have hbeq : (r0.drop (idx + 2) == qiSuffix) = true := by
    rw [hqi]
    exact beq_self_eq_true qiSuffix
  simp only [stepLine, asmInit, h0, h0l, hidx, hfit, hbeq, if_neg, ite_false, ite_true,
    if_false, if_true]

theorem stepLine_suppressed (dem : List Char → Option (List Char))
    (l r : List Char) (fns i : Nat) (hne : l ≠ [])
    (h : processLine dem l = .ok r) (hi0 : i ≠ 0) (hi3 : i < 3) :
    stepLine dem ⟨i, fns, true⟩ l = (⟨i + 1, fns, true⟩, [], none) := by
  have hl : ¬ (l.length = 0) := by simpa [List.length_eq_zero] using hne
  simp only [stepLine, h, hl, hi0, hi3, if_neg, ite_false, ite_true, if_false, if_true,
    decide_eq_true_eq]
  simp

/-- Claim C3: when the first processed line's normalized signature is
`<ClassName>::QueryInterface(uint32_t, void**)` (first `:'` at position
`idx`, method text after `idx + 2` exactly the QueryInterface pattern),
the first three processed lines contribute no member declarations: line 0
emits exactly the include directive, a blank line, the
`class <InterfaceName> : public cIGZUnknown` header, the opening brace and
the `public:` line, then lines 1 and 2 are suppressed, and the rest of the
input is processed from lineIndex 3 with `isGZUnknownClass` set. -/
theorem claimC3_qi_block (dem : List Char → Option (List Char))
    (l0 l1 l2 r0 r1 r2 : List Char) (rest : List (List Char)) (idx : Nat)
    (h0ne : l0 ≠ []) (h1ne : l1 ≠ []) (h2ne : l2 ≠ [])
    (h0 : processLine dem l0 = .ok r0)
    (h1 : processLine dem l1 = .ok r1)
    (h2 : processLine dem l2 = .ok r2)
    (hidx : findFrom r0 [':'] 0 = some idx)
    (hqi : r0.drop (idx + 2) = qiSuffix) :
    DemangleInputFile dem (l0 :: l1 :: l2 :: rest) =
      (includeLine :: [] :: gzClassLine (rewriteClassName (r0.take idx)) ::
         braceLine :: publicLine :: (demangleLoop dem ⟨3, idx + 2, true⟩ rest).1,
       (demangleLoop dem ⟨3, idx + 2, true⟩ rest).2) := by
  have hs0 := stepLine_qi_first dem l0 r0 idx h0ne h0 hidx hqi
  have hs1 := stepLine_suppressed dem l1 r1 (idx + 2) 1 h1ne h1 (by omega) (by omega)
  have hs2 := stepLine_suppressed dem l2 r2 (idx + 2) 2 h2ne h2 (by omega) (by omega)
  simp only [DemangleInputFile, demangleLoop, hs0, hs1, hs2]
  rfl

/-- Witness for claim C3's theorem: the `cSC3App` QueryInterface first
line with AddRef and Release following. -/
theorem claimC3_qi_block_witness :
    DemangleInputFile demQI ["q".toList, "a".toList, "r".toList] =
      (includeLine :: [] :: gzClassLine (rewriteClassName
          (("cSC3App::QueryInterface(uint32_t, void**)".toList).take 7)) ::
         braceLine :: publicLine :: (demangleLoop demQI ⟨3, 7 + 2, true⟩ []).1,
       (demangleLoop demQI ⟨3, 7 + 2, true⟩ []).2) :=
  claimC3_qi_block demQI ("q".toList) ("a".toList) ("r".toList)
    ("cSC3App::QueryInterface(uint32_t, void**)".toList)
    ("cSC3App::AddRef()".toList) ("cSC3App::Release()".toList) [] 7
    (by decide) (by decide) (by decide) (by decide) (by decide) (by decide)
    (by decide) (by decide)

/-- Claim C4: the emitted interface name is the class name (the text
before the first `:`) rewritten as the code does — a `cRZ` prefix is
replaced by `cIGZ` (`cRZLanguageManager` becomes `cIGZLanguageManager`),
and otherwise a leading `c` is replaced by `cI` (`cSC3App` becomes
`cISC3App`); end to end, a first line demangling to
`cRZLanguageManager::QueryInterface(uint32_t, void**)` emits the header
`class cIGZLanguageManager : public cIGZUnknown`. -/
theorem claimC4_interface_name :
    (∀ cn : List Char, ("cRZ".toList).isPrefixOf cn = true →
        rewriteClassName cn = "cIGZ".toList ++ cn.drop 3)
    ∧ (∀ cn : List Char, cn.head? = some 'c' → ("cRZ".toList).isPrefixOf cn = false →
        rewriteClassName cn = "cI".toList ++ cn.drop 1)
    ∧ rewriteClassName ("cRZLanguageManager".toList) = "cIGZLanguageManager".toList
    ∧ rewriteClassName ("cSC3App".toList) = "cISC3App".toList
    ∧ DemangleInputFile demRZ ["x".toList] =
        ([includeLine, [], gzClassLine ("cIGZLanguageManager".toList),
          braceLine, publicLine, closingLine], none) := by
  refine ⟨?_, ?_, by decide, by decide, by decide⟩
  · intro cn hpre
    obtain ⟨u, rfl⟩ := isPrefixOf_eq_true_iff.mp hpre
    show rewriteClassName ('c' :: 'R' :: 'Z' :: u) = "cIGZ".toList ++ List.drop 3 ('c' :: 'R' :: 'Z' :: u)
    simp [rewriteClassName, cppAt, List.isPrefixOf]
  · intro cn hhead hpre
    obtain ⟨tl, rfl⟩ : ∃ tl, cn = 'c' :: tl := by
      cases cn with
      | nil => cases hhead
      | cons a tl =>
        simp only [List.head?_cons, Option.some.injEq] at hhead
        exact ⟨tl, by rw [hhead]⟩
    have hnp : ¬ (['R', 'Z'] <+: tl) := by
      intro hcon
      rw [show ("cRZ".toList.isPrefixOf ('c' :: tl)) =
            (['R', 'Z'] : List Char).isPrefixOf tl from by
          simp [List.isPrefixOf]] at hpre
      rw [isPrefixOf_eq_true_iff.mpr hcon] at hpre
      cases hpre
    simp [rewriteClassName, cppAt, hnp]

/-- Witness for claim C4's theorem at concrete class names. -/
theorem claimC4_interface_name_witness :
    rewriteClassName ("cRZFoo".toList) = "cIGZ".toList ++ ("cRZFoo".toList).drop 3 :=
  claimC4_interface_name.1 ("cRZFoo".toList) (by decide)

end SC3K
